import Mathlib

/- Shallow embedding of FSB_BANK_Extractor_CPP.cpp.

   Bytes are modelled as natural numbers, machine integers as naturals
   reduced modulo the relevant power of two, FMOD float samples as
   rationals, and std::ifstream as an explicit record carrying the byte
   list, the read position and the fail flag.  Loops that the C++ code
   writes as while loops are translated to fuel-indexed structural
   recursion; every theorem that exercises a loop supplies enough fuel
   for the run it describes, and a fuel-exhaustion result is reported by
   a dedicated diverge constructor, which is how the one genuinely
   non-terminating behaviour (a zero-byte engine read) is made visible. -/

-- ## Byte streams (std::ifstream as used by BANKtoFSBExtractor)

/-- State of a binary input stream: the underlying bytes, the current
    read position, and the fail flag (failbit).  The fail flag matters
    because, since C++11, seekg first clears eofbit but does nothing at
    all when failbit is set, so a stream that ran out of bytes during a
    read cannot be repositioned afterwards. -/
structure ByteStream where
  data : List Nat
  pos : Nat
  failed : Bool
deriving DecidableEq

/-- The four signature bytes F, S, B, 5 searched for by
    BANKtoFSBExtractor::FindFSB5Signature. -/
def fsb5sig : List Nat := [70, 83, 66, 53]

/-- A full 4-byte FSB5 signature starts at offset p of d. -/
def sigAt (d : List Nat) (p : Nat) : Prop := (d.drop p).take 4 = fsb5sig

instance (d : List Nat) (p : Nat) : Decidable (sigAt d p) := by
  unfold sigAt; exact inferInstance

/-- istream read of n bytes: a failed stream extracts nothing; if fewer
    than n bytes remain, the remaining bytes are extracted, the position
    ends at end-of-stream and the fail flag is set (failbit plus eofbit
    of a short read). -/
def bsRead (s : ByteStream) (n : Nat) : List Nat × ByteStream :=
  if s.failed then ([], s)
  else if n ≤ s.data.length - s.pos then
    ((s.data.drop s.pos).take n, ⟨s.data, s.pos + n, false⟩)
  else (s.data.drop s.pos, ⟨s.data, s.data.length, true⟩)

/-- seekg with a negative relative offset of n bytes: a no-op when the
    fail flag is set (the sentry of seekg fails), otherwise moves the
    position back by n. -/
def bsSeekBack (s : ByteStream) (n : Nat) : ByteStream :=
  if s.failed then s else ⟨s.data, s.pos - n, false⟩

-- ## BANKtoFSBExtractor::FindFSB5Signature

/-- Loop of FindFSB5Signature, fuel-indexed.  At each position the code
    peeks (exiting the loop at end-of-stream, after which seekg restores
    the start position), reads 4 bytes (a short read sets the fail flag,
    breaks out, and leaves the closing seekg ineffective), and on a
    match seeks back 4 bytes and returns true, otherwise seeks back 3
    bytes so the scan advances with single-byte stride.  Any fuel larger
    than d.length - pos exceeds the number of iterations. -/
def findFSB5Aux (d : List Nat) (start : Nat) : Nat → Nat → Bool × ByteStream
  | 0, pos => (false, ⟨d, pos, true⟩)
  | fuel + 1, pos =>
    if d.length ≤ pos then (false, ⟨d, start, false⟩)
    else if 4 ≤ d.length - pos then
      if (d.drop pos).take 4 = fsb5sig then (true, ⟨d, pos, false⟩)
      else findFSB5Aux d start fuel (pos + 1)
    else (false, ⟨d, d.length, true⟩)

/-- BANKtoFSBExtractor::FindFSB5Signature.  On a failed stream the
    initial peek already reports end-of-file and the closing seekg is a
    no-op, so the stream is returned unchanged with result false. -/
def findFSB5Signature (s : ByteStream) : Bool × ByteStream :=
  if s.failed then (false, s)
  else findFSB5Aux s.data s.pos (s.data.length + 1) s.pos

-- ## BANKtoFSBExtractor::ExtractFSBsFromBankFile

/-- Little-endian 32-bit read of the four bytes at offset off
    (out-of-range bytes read as 0; all theorems keep the reads in
    range). -/
def readU32LE (d : List Nat) (off : Nat) : Nat :=
  d.getD off 0 + 256 * d.getD (off + 1) 0 + 65536 * d.getD (off + 2) 0 +
    16777216 * d.getD (off + 3) 0

/-- Total byte length of the sub-container whose signature sits at
    offset o: 0x3C + streamHeaderSize + nameTableSize + dataSize, the
    three fields read little-endian at offsets 12, 16 and 20 from the
    signature, summed in uint32 arithmetic. -/
def fsbSizeAt (d : List Nat) (o : Nat) : Nat :=
  (60 + readU32LE d (o + 12) + readU32LE d (o + 16) + readU32LE d (o + 20)) % 4294967296

/-- Temporary file name of the k-th extracted sub-container (k is the
    1-based fsbCount): the first gets stem.fsb, later ones stem_k.fsb. -/
def tempName (stem : String) (k : Nat) : String :=
  if 1 < k then stem ++ "_" ++ toString k ++ ".fsb" else stem ++ ".fsb"

/-- Loop of ExtractFSBsFromBankFile, fuel-indexed.  Per iteration: find
    the next signature; read the 24 header bytes (signature, version,
    numSamples, shdrSize, nameSize, dataSize); compute the total size;
    seek back 24 bytes; read size bytes into a zero-initialised buffer
    of length size and write the whole buffer to the temp file (a short
    read leaves the zero tail in place and sets the fail flag, after
    which the next find reports false and the loop ends). -/
def extractLoop (stem : String) : Nat → ByteStream → Nat → List (String × List Nat)
  | 0, _, _ => []
  | fuel + 1, s, count =>
    match findFSB5Signature s with
    | (false, _) => []
    | (true, s1) =>
      let q := s1.pos
      let afterHdr := bsRead s1 24
      let size := fsbSizeAt s1.data q
      let body := bsRead (bsSeekBack afterHdr.2 24) size
      (tempName stem (count + 1), body.1 ++ List.replicate (size - body.1.length) 0) ::
        extractLoop stem fuel body.2 (count + 1)

/-- BANKtoFSBExtractor::ExtractFSBsFromBankFile on the bytes of the bank
    file, returning the ordered list of (temp file name, file content)
    pairs.  The fuel d.length + 1 covers every run in which each
    extracted sub-container has positive computed size. -/
def extractFSBsFromBankFile (stem : String) (d : List Nat) : List (String × List Nat) :=
  extractLoop stem (d.length + 1) ⟨d, 0, false⟩ 0

-- ## WriteWAVHeader

/-- FMOD_SOUND_FORMAT. -/
inductive SoundFormat where
  | noneFmt | pcm8 | pcm16 | pcm24 | pcm32 | pcmfloat | bitstream | maxFmt
deriving DecidableEq

/-- The numeric fields of the 44-byte WAV header, each already reduced
    to the width of the field it is stored in. -/
structure WAVHeader where
  riffSize : Nat
  fmtSize : Nat
  formatCode : Nat
  numChannels : Nat
  sampleRateField : Nat
  byteRate : Nat
  blockAlign : Nat
  bitsField : Nat
  dataSize32 : Nat
deriving DecidableEq

/-- WriteWAVHeader: riffSize is uint32(36 + dataSize); the format code
    is 3 (IEEE float) exactly for FMOD_SOUND_FORMAT_PCMFLOAT and 1 (PCM)
    otherwise; byte rate is uint32(uint64(sampleRate) * channels *
    bitsPerSample / 8); block align is uint16(channels * bitsPerSample /
    8); dataSize32 is uint32(dataSize). -/
def writeWAVHeader (sampleRate channels bitsPerSample dataSize : Nat)
    (format : SoundFormat) : WAVHeader :=
  { riffSize := (36 + dataSize) % 4294967296
    fmtSize := 16
    formatCode := if format = SoundFormat.pcmfloat then 3 else 1
    numChannels := channels % 65536
    sampleRateField := sampleRate % 4294967296
    byteRate := sampleRate * channels * bitsPerSample % 18446744073709551616 / 8 % 4294967296
    blockAlign := channels * bitsPerSample / 8 % 65536
    bitsField := bitsPerSample % 65536
    dataSize32 := dataSize % 4294967296 }

-- ## GetSoundInfo: sample-rate resolution

/-- The sample-rate line of GetSoundInfo: the queried default frequency
    is cast with static_cast to int when it is greater than zero
    (truncation toward zero, which on the positive guard is the floor),
    otherwise 44100 is used. -/
def resolveSampleRate (defaultFrequency : ℚ) : ℤ :=
  if 0 < defaultFrequency then ⌊defaultFrequency⌋ else 44100

-- ## main: the batch loop and the temp-file cleanup

/-- One container (FSB file) of the batch: whether createSound succeeds
    for it, and the success of each of its sub-sound extractions. -/
structure Container where
  loads : Bool
  subs : List Bool
deriving DecidableEq

/-- The loop of main over filesToProcess.  Sub-sound failures are
    isolated by the per-sub-sound try/catch inside the loop, so a loaded
    container contributes all its sub-sound outcomes.  A createSound
    failure throws from the FMODSound constructor; nothing inside the
    loop catches it, so it propagates to the top-level handler: the
    result records the outcomes of the containers processed before the
    throw and the flag that the run was aborted. -/
def runContainers : List Container → List (List Bool) × Bool
  | [] => ([], false)
  | c :: rest =>
    if c.loads then ((c.subs :: (runContainers rest).1), (runContainers rest).2)
    else ([], true)

/-- Observable tail events of main. -/
inductive MainEvent where
  | finalConsole
  | deleteTemp (i : Nat)
  | errorExit
deriving DecidableEq

/-- The tail of main after the batch loop: when the loop threw, the
    top-level catch prints the error block and returns 1 immediately;
    otherwise the final console message is printed and then every
    recorded temporary file is deleted. -/
def mainEndTrace (tempCount : Nat) (cs : List Container) : List MainEvent :=
  if (runContainers cs).2 then [MainEvent.errorExit]
  else MainEvent.finalConsole :: (List.range tempCount).map MainEvent.deleteTemp

-- ## AudioProcessor: the three transcription loops

/-- Result of a transcription loop: normal completion with the bytes
    written, an error return (engine read failure), or fuel exhaustion
    marking a run of the C++ while loop that never ends. -/
inductive WriteResult where
  | success (out : List Nat)
  | failure (out : List Nat)
  | diverge
deriving DecidableEq

def WriteResult.out : WriteResult → List Nat
  | success o => o
  | failure o => o
  | diverge => []

def WriteResult.isSuccess : WriteResult → Bool
  | success _ => true
  | _ => false

/-- AudioProcessor::WriteAudioDataChunk (all integer PCM widths and the
    unsupported-format fallback).  plan k is the engine response to the
    k-th readData call: none is an FMOD error, some m delivers
    min m bytesToRead bytes (capped by the bytes the stream still has).
    Each delivered chunk is written through unchanged. -/
def writeAudioDataChunkLoop (plan : Nat → Option Nat) (src : List Nat) (L : Nat) :
    Nat → Nat → Nat → List Nat → WriteResult
  | 0, _, _, _ => WriteResult.diverge
  | fuel + 1, total, k, out =>
    if L ≤ total then WriteResult.success out
    else
      match plan k with
      | none => WriteResult.failure out
      | some m =>
        writeAudioDataChunkLoop plan src L fuel
          (total + ((src.drop total).take (min m (min 4096 (L - total)))).length)
          (k + 1)
          (out ++ (src.drop total).take (min m (min 4096 (L - total))))

/-- The inner byte loop of WritePCM24DataChunk on one chunk: the buffer
    is walked 3 bytes at a time and each complete 3-byte sample is
    written; a trailing group of 1 or 2 bytes fails the i + 2 < bytesRead
    guard and is discarded. -/
def pcm24Pack : List Nat → List Nat
  | a :: b :: c :: rest => a :: b :: c :: pcm24Pack rest
  | _ => []

/-- AudioProcessor::WritePCM24DataChunk: like the generic loop, but each
    chunk passes through pcm24Pack before being written, while
    totalBytesRead still advances by the full delivered byte count. -/
def writePCM24DataChunkLoop (plan : Nat → Option Nat) (src : List Nat) (L : Nat) :
    Nat → Nat → Nat → List Nat → WriteResult
  | 0, _, _, _ => WriteResult.diverge
  | fuel + 1, total, k, out =>
    if L ≤ total then WriteResult.success out
    else
      match plan k with
      | none => WriteResult.failure out
      | some m =>
        writePCM24DataChunkLoop plan src L fuel
          (total + ((src.drop total).take (min m (min 4096 (L - total)))).length)
          (k + 1)
          (out ++ pcm24Pack ((src.drop total).take (min m (min 4096 (L - total)))))

/-- Number of bytes the PCM24 loop writes for a stream of L bytes under
    full-chunk delivery: full 4096-byte chunks keep 4095 bytes each
    (4096 = 3 * 1365 + 1), and the final partial chunk of L mod 4096
    bytes keeps its complete 3-byte groups. -/
def pcm24Expected (L : Nat) : Nat := 4095 * (L / 4096) + 3 * (L % 4096 / 3)

/-- std::clamp of a float sample to [-1.0, 1.0]: below the range gives
    the lower bound, above the range gives the upper bound. -/
def clampQ (x : ℚ) : ℚ := if x < -1 then -1 else if 1 < x then 1 else x

/-- Result of the float transcription loop: the sample values written
    and the total byte count written. -/
inductive FloatResult where
  | success (samples : List ℚ) (bytes : Nat)
  | failure (samples : List ℚ) (bytes : Nat)
  | diverge
deriving DecidableEq

def FloatResult.samples : FloatResult → List ℚ
  | success s _ => s
  | failure s _ => s
  | diverge => []

def FloatResult.isSuccess : FloatResult → Bool
  | success _ _ => true
  | _ => false

/-- AudioProcessor::WritePCMFloatDataChunk.  src is the stream as float
    samples of 4 bytes each; the loop counts bytes.  A delivered chunk
    of d bytes has its first d / 4 complete samples clamped and written;
    bytes counts the wavFile.write calls, one per delivered chunk of d
    bytes.  (The loop is modelled at whole-sample granularity: the 1-3
    raw tail bytes of a delivery not a multiple of 4 are counted in
    bytes but carry no representable sample value.) -/
def writePCMFloatDataChunkLoop (plan : Nat → Option Nat) (src : List ℚ) (L : Nat) :
    Nat → Nat → Nat → List ℚ → Nat → FloatResult
  | 0, _, _, _, _ => FloatResult.diverge
  | fuel + 1, total, k, out, written =>
    if L ≤ total then FloatResult.success out written
    else
      match plan k with
      | none => FloatResult.failure out written
      | some m =>
        writePCMFloatDataChunkLoop plan src L fuel
          (total + min (min m (min 4096 (L - total))) (4 * src.length - total))
          (k + 1)
          (out ++ ((src.drop (total / 4)).take
            (min (min m (min 4096 (L - total))) (4 * src.length - total) / 4)).map clampQ)
          (written + min (min m (min 4096 (L - total))) (4 * src.length - total))

-- ## Helper lemmas: batch loop

lemma runContainers_all_load (cs : List Container) (h : ∀ c ∈ cs, c.loads = true) :
    runContainers cs = (cs.map Container.subs, false) := by
  induction cs with
  | nil => simp [runContainers]
  | cons c rest ih =>
    have hc : c.loads = true := h c (List.mem_cons_self c rest)
    have hrest := ih (fun x hx => h x (List.mem_cons_of_mem c hx))
    simp [runContainers, hc, hrest]

lemma runContainers_first_failure (cs₁ : List Container) (c : Container)
    (cs₂ : List Container) (hall : ∀ x ∈ cs₁, x.loads = true) (hc : c.loads = false) :
    runContainers (cs₁ ++ c :: cs₂) = (cs₁.map Container.subs, true) := by
  induction cs₁ with
  | nil => simp [runContainers, hc]
  | cons a t ih =>
    have ha : a.loads = true := hall a (List.mem_cons_self a t)
    have ht := ih (fun x hx => hall x (List.mem_cons_of_mem a hx))
    simp [runContainers, ha, ht]

-- ## Claim theorems C3 to C6

/-- C3 counterexample: a batch of two containers where the first fails
    to load.  The claim says the remaining container is still attempted
    and the run is not aborted; in the code the createSound exception
    escapes the loop, so the run aborts (flag true) and the second
    container contributes no processing at all (empty outcome list). -/
theorem C3_counterexample :
    runContainers [⟨false, []⟩, ⟨true, [true]⟩] = ([], true) := by
  decide

/-- C3 amended: a createSound failure aborts the entire remaining run,
    not just the failing container.  If every container loads, all are
    processed and the run is not aborted; if the batch is a loading
    prefix followed by a failing container, exactly the prefix is
    processed and the run is aborted. -/
theorem C3_amended :
    (∀ cs : List Container, (∀ c ∈ cs, c.loads = true) →
       runContainers cs = (cs.map Container.subs, false)) ∧
    (∀ (cs₁ : List Container) (c : Container) (cs₂ : List Container),
       (∀ x ∈ cs₁, x.loads = true) → c.loads = false →
       runContainers (cs₁ ++ c :: cs₂) = (cs₁.map Container.subs, true)) :=
  ⟨runContainers_all_load, runContainers_first_failure⟩

/-- C3 witness: the amended statement evaluated on a concrete batch
    whose middle container fails to load. -/
theorem C3_witness :
    runContainers [⟨true, [true]⟩, ⟨false, []⟩, ⟨true, [false]⟩] = ([[true]], true) := by
  have h := C3_amended.2 [⟨true, [true]⟩] ⟨false, []⟩ [⟨true, [false]⟩]
    (by decide) (by decide)
  simpa using h

/-- C4 counterexample: one temporary file and a container whose load
    fails.  The claim says the temp file is deleted even on the
    fatal-error path; in the code the top-level catch returns 1 before
    the deletion loop, so the trace is just the error exit and contains
    no deletion event. -/
theorem C4_counterexample :
    mainEndTrace 1 [⟨false, []⟩] = [MainEvent.errorExit] ∧
      MainEvent.deleteTemp 0 ∉ mainEndTrace 1 [⟨false, []⟩] := by
  decide

/-- C4 amended: temporary files are deleted only on the non-exception
    path, where deletion does come after the final console output; on
    the path where a fatal error aborts the main flow the process exits
    without deleting any temporary file. -/
theorem C4_amended (tempCount : Nat) (cs : List Container) :
    ((runContainers cs).2 = false →
       mainEndTrace tempCount cs =
         MainEvent.finalConsole :: (List.range tempCount).map MainEvent.deleteTemp ∧
       ∀ i < tempCount, MainEvent.deleteTemp i ∈ mainEndTrace tempCount cs) ∧
    ((runContainers cs).2 = true →
       ∀ i, MainEvent.deleteTemp i ∉ mainEndTrace tempCount cs) := by
  constructor
  · intro h
    constructor
    · simp [mainEndTrace, h]
    · intro i hi
      rw [mainEndTrace, if_neg (by simp [h])]
      exact List.mem_cons_of_mem _ (List.mem_map_of_mem _ (List.mem_range.mpr hi))
  · intro h i
    simp [mainEndTrace, h]

/-- C4 witness: on a successful run with one temporary file, the
    deletion event for it is present in the tail trace. -/
theorem C4_witness : MainEvent.deleteTemp 0 ∈ mainEndTrace 1 [] :=
  ((C4_amended 1 []).1 (by decide)).2 0 (by decide)

/-- C5 counterexample: a default frequency of 2.75 Hz (exactly
    representable as a float).  The code keeps 2 (truncation toward
    zero); rounding to the nearest integer as claimed would give 3. -/
theorem C5_counterexample :
    resolveSampleRate (11 / 4) = 2 ∧ round ((11 : ℚ) / 4) = 3 ∧ (2 : ℤ) ≠ 3 := by
  refine ⟨?_, ?_, by decide⟩
  · norm_num [resolveSampleRate]
  · norm_num [round_eq]

/-- C5 amended: for a positive queried default frequency the sample
    rate is the frequency truncated toward zero (the greatest integer
    not exceeding it), not rounded to nearest; otherwise it is 44100. -/
theorem C5_amended (f : ℚ) :
    (0 < f → (resolveSampleRate f : ℚ) ≤ f ∧ f < (resolveSampleRate f : ℚ) + 1) ∧
    (¬ 0 < f → resolveSampleRate f = 44100) := by
  constructor
  · intro hf
    rw [resolveSampleRate, if_pos hf]
    exact ⟨Int.floor_le f, Int.lt_floor_add_one f⟩
  · intro hf
    rw [resolveSampleRate, if_neg hf]

/-- C5 witness: the amended statement evaluated at 2.75 Hz. -/
theorem C5_witness :
    (resolveSampleRate (11 / 4) : ℚ) ≤ 11 / 4 ∧
      (11 : ℚ) / 4 < (resolveSampleRate (11 / 4) : ℚ) + 1 :=
  (C5_amended (11 / 4)).1 (by norm_num)

/-- C6 counterexample: dataSize 4294967295 (the largest value the
    stream-length query can report).  The claim says the RIFF total-size
    field equals 36 + dataSize; the field is stored as uint32, so the
    code writes 35. -/
theorem C6_counterexample :
    (writeWAVHeader 44100 2 16 4294967295 SoundFormat.pcm16).riffSize = 35 ∧
      36 + 4294967295 ≠ 35 := by
  constructor
  · rfl
  · decide

/-- C6 amended: whenever the derived values fit the width of the field
    that stores them, the byte-rate field equals sampleRate * channels *
    bitsPerSample / 8 in exact integer arithmetic, the block-align field
    equals channels * bitsPerSample / 8, the RIFF total-size field
    equals 36 + dataSize and the data-size field equals dataSize; in
    general each field is that value reduced modulo 2^32 (2^16 for
    block align).  The format code is 3 (float PCM) exactly for the
    32-bit-float format and 1 (integer PCM) for every other format,
    unconditionally. -/
theorem C6_amended (sr ch bits ds : Nat) (fmt : SoundFormat) :
    (sr * ch * bits / 8 < 4294967296 →
       (writeWAVHeader sr ch bits ds fmt).byteRate = sr * ch * bits / 8) ∧
    (ch * bits / 8 < 65536 →
       (writeWAVHeader sr ch bits ds fmt).blockAlign = ch * bits / 8) ∧
    (36 + ds < 4294967296 →
       (writeWAVHeader sr ch bits ds fmt).riffSize = 36 + ds ∧
       (writeWAVHeader sr ch bits ds fmt).dataSize32 = ds) ∧
    ((writeWAVHeader sr ch bits ds fmt).formatCode = 3 ↔ fmt = SoundFormat.pcmfloat) ∧
    (fmt ≠ SoundFormat.pcmfloat → (writeWAVHeader sr ch bits ds fmt).formatCode = 1) := by
  refine ⟨?_, ?_, ?_, ?_, ?_⟩
  · intro h
    have hlt : sr * ch * bits < 18446744073709551616 := by
      have h8 : sr * ch * bits < 4294967296 * 8 := (Nat.div_lt_iff_lt_mul (by norm_num)).mp h
      omega
    simp only [writeWAVHeader]
    rw [Nat.mod_eq_of_lt hlt, Nat.mod_eq_of_lt h]
  · intro h
    simp only [writeWAVHeader]
    rw [Nat.mod_eq_of_lt h]
  · intro h
    simp only [writeWAVHeader]
    constructor
    · rw [Nat.mod_eq_of_lt (by omega)]
    · rw [Nat.mod_eq_of_lt (by omega)]
  · cases fmt <;> simp [writeWAVHeader]
  · intro h
    cases fmt <;> simp_all [writeWAVHeader]

/-- C6 witness: the amended statement evaluated at a stereo 16-bit
    44100 Hz float-format header with a small data size. -/
theorem C6_witness :
    (writeWAVHeader 44100 2 16 1000 SoundFormat.pcmfloat).byteRate = 176400 ∧
      (writeWAVHeader 44100 2 16 1000 SoundFormat.pcmfloat).blockAlign = 4 ∧
      (writeWAVHeader 44100 2 16 1000 SoundFormat.pcmfloat).riffSize = 1036 ∧
      (writeWAVHeader 44100 2 16 1000 SoundFormat.pcmfloat).formatCode = 3 := by
  obtain ⟨h1, h2, h3, h4, _⟩ := C6_amended 44100 2 16 1000 SoundFormat.pcmfloat
  refine ⟨?_, ?_, ?_, h4.mpr rfl⟩
  · rw [h1 (by decide)]
  · rw [h2 (by decide)]
  · rw [(h3 (by decide)).1]

-- ## Helper lemmas: signature scanner

lemma sigAt_add_four_le (d : List Nat) (q : Nat) (h : sigAt d q) : q + 4 ≤ d.length := by
  have hlen := congrArg List.length h
  simp only [List.length_take, List.length_drop, fsb5sig, List.length_cons,
    List.length_nil] at hlen
  omega

lemma findFSB5Aux_found (d : List Nat) (start : Nat) :
    ∀ fuel pos q, d.length - pos < fuel → pos ≤ q → sigAt d q →
      (∀ p, pos ≤ p → p < q → ¬ sigAt d p) →
      findFSB5Aux d start fuel pos = (true, ⟨d, q, false⟩) := by
  intro fuel
  induction fuel with
  | zero => intro pos q hfuel _ _ _; omega
  | succ fuel ih =>
    intro pos q hfuel hpq hq hleast
    have hq4 : q + 4 ≤ d.length := sigAt_add_four_le d q hq
    simp only [findFSB5Aux]
    rw [if_neg (show ¬ d.length ≤ pos by omega), if_pos (show 4 ≤ d.length - pos by omega)]
    by_cases hpos : pos = q
    · subst hpos
      have hq2 : (d.drop pos).take 4 = fsb5sig := hq
      rw [if_pos hq2]
    · have hlt : pos < q := lt_of_le_of_ne hpq hpos
      have hns : ¬ (d.drop pos).take 4 = fsb5sig := hleast pos le_rfl hlt
      rw [if_neg hns]
      exact ih (pos + 1) q (by omega) (by omega) hq (fun p hp1 hp2 => hleast p (by omega) hp2)

lemma findFSB5Aux_none (d : List Nat) (start : Nat) :
    ∀ fuel pos, d.length - pos < fuel → pos < d.length → (∀ p, pos ≤ p → ¬ sigAt d p) →
      findFSB5Aux d start fuel pos = (false, ⟨d, d.length, true⟩) := by
  intro fuel
  induction fuel with
  | zero => intro pos hfuel _ _; omega
  | succ fuel ih =>
    intro pos hfuel hpos hnone
    simp only [findFSB5Aux]
    rw [if_neg (show ¬ d.length ≤ pos by omega)]
    by_cases h4 : 4 ≤ d.length - pos
    · rw [if_pos h4]
      have hns : ¬ (d.drop pos).take 4 = fsb5sig := hnone pos le_rfl
      rw [if_neg hns]
      exact ih (pos + 1) (by omega) (by omega) (fun p hp => hnone p (by omega))
    · rw [if_neg h4]

lemma findFSB5Aux_atEnd (d : List Nat) (start fuel pos : Nat) (h : d.length ≤ pos)
    (hf : 0 < fuel) : findFSB5Aux d start fuel pos = (false, ⟨d, start, false⟩) := by
  cases fuel with
  | zero => omega
  | succ fuel =>
    simp only [findFSB5Aux]
    rw [if_pos h]

lemma findFSB5_found (d : List Nat) (pos q : Nat) (hpq : pos ≤ q) (hq : sigAt d q)
    (hleast : ∀ p, pos ≤ p → p < q → ¬ sigAt d p) :
    findFSB5Signature ⟨d, pos, false⟩ = (true, ⟨d, q, false⟩) := by
  simp only [findFSB5Signature, Bool.false_eq_true, if_false]
  exact findFSB5Aux_found d pos (d.length + 1) pos q (by omega) hpq hq hleast

lemma findFSB5_none_mid (d : List Nat) (pos : Nat) (hpos : pos < d.length)
    (hnone : ∀ p, pos ≤ p → ¬ sigAt d p) :
    findFSB5Signature ⟨d, pos, false⟩ = (false, ⟨d, d.length, true⟩) := by
  simp only [findFSB5Signature, Bool.false_eq_true, if_false]
  exact findFSB5Aux_none d pos (d.length + 1) pos (by omega) hpos hnone

lemma findFSB5_none_atEnd (d : List Nat) (pos : Nat) (hpos : d.length ≤ pos) :
    findFSB5Signature ⟨d, pos, false⟩ = (false, ⟨d, pos, false⟩) := by
  simp only [findFSB5Signature, Bool.false_eq_true, if_false]
  exact findFSB5Aux_atEnd d pos (d.length + 1) pos hpos (by omega)

-- ## Claim theorems C7

/-- C7 counterexample: five bytes with no signature, search started at
    position 0.  The claim says that on failure the stream is restored
    to its original position with no other side effects; the code ends
    with the final short read having set the fail flag, which makes the
    restoring seekg a no-op, so the stream is left failed at
    end-of-stream (position 5), not restored to 0. -/
theorem C7_counterexample :
    findFSB5Signature ⟨List.replicate 5 0, 0, false⟩ =
      (false, ⟨List.replicate 5 0, 5, true⟩) ∧ (5 : Nat) ≠ 0 := by
  decide

/-- C7 amended: the search advances with single-byte stride.  If the
    4-byte signature occurs at or after the start position, the search
    reports success with the stream positioned exactly at the first
    byte of the earliest occurrence.  If no occurrence exists, then:
    when the search started before end-of-stream, the stream is left in
    a failed state positioned at end-of-stream (the restoring seek is
    suppressed by the fail flag set by the final short read); only when
    the search started at or past end-of-stream is the position
    preserved. -/
theorem C7_amended :
    (∀ (d : List Nat) (pos q : Nat), pos ≤ q → sigAt d q →
       (∀ p, pos ≤ p → p < q → ¬ sigAt d p) →
       findFSB5Signature ⟨d, pos, false⟩ = (true, ⟨d, q, false⟩)) ∧
    (∀ (d : List Nat) (pos : Nat), pos < d.length →
       (∀ p, pos ≤ p → p < d.length → ¬ sigAt d p) →
       findFSB5Signature ⟨d, pos, false⟩ = (false, ⟨d, d.length, true⟩)) ∧
    (∀ (d : List Nat) (pos : Nat), d.length ≤ pos →
       findFSB5Signature ⟨d, pos, false⟩ = (false, ⟨d, pos, false⟩)) := by
  refine ⟨findFSB5_found, ?_, findFSB5_none_atEnd⟩
  intro d pos hpos hnone
  refine findFSB5_none_mid d pos hpos (fun p hp hsig => ?_)
  have h4 := sigAt_add_four_le d p hsig
  exact hnone p hp (by omega) hsig

/-- C7 witness: the amended success case evaluated on a 6-byte stream
    whose signature starts at offset 2. -/
theorem C7_witness :
    findFSB5Signature ⟨[0, 0, 70, 83, 66, 53], 0, false⟩ =
      (true, ⟨[0, 0, 70, 83, 66, 53], 2, false⟩) :=
  C7_amended.1 [0, 0, 70, 83, 66, 53] 0 2 (by decide) (by decide)
    (by
      intro p hp0 hp2
      have hp : p = 0 ∨ p = 1 := by omega
      rcases hp with rfl | rfl <;> decide)

-- ## Helper lemmas: sub-container extraction

lemma bsRead_ok (d : List Nat) (pos n : Nat) (h : pos + n ≤ d.length) :
    bsRead ⟨d, pos, false⟩ n = ((d.drop pos).take n, ⟨d, pos + n, false⟩) := by
  simp only [bsRead]
  rw [if_neg (by simp), if_pos (show n ≤ d.length - pos by omega)]

lemma bsSeekBack_ok (d : List Nat) (pos n : Nat) :
    bsSeekBack ⟨d, pos, false⟩ n = ⟨d, pos - n, false⟩ := by
  simp [bsSeekBack]

lemma tempName_one (stem : String) : tempName stem 1 = stem ++ ".fsb" := by
  rw [tempName, if_neg (by norm_num)]

lemma tempName_two (stem : String) : tempName stem 2 = stem ++ "_2.fsb" := by
  rw [tempName, if_pos (by norm_num), String.append_assoc, String.append_assoc]
  congr 1

lemma extractLoop_found_step (stem : String) (d : List Nat) (fuel count pos q : Nat)
    (hfind : findFSB5Signature ⟨d, pos, false⟩ = (true, ⟨d, q, false⟩))
    (h24 : q + 24 ≤ d.length) (hsize : q + fsbSizeAt d q ≤ d.length) :
    extractLoop stem (fuel + 1) ⟨d, pos, false⟩ count =
      (tempName stem (count + 1), (d.drop q).take (fsbSizeAt d q)) ::
        extractLoop stem fuel ⟨d, q + fsbSizeAt d q, false⟩ (count + 1) := by
  have hlen : ((d.drop q).take (fsbSizeAt d q)).length = fsbSizeAt d q := by
    simp only [List.length_take, List.length_drop]
    omega
  simp only [extractLoop, hfind]
  rw [bsRead_ok d q 24 h24, bsSeekBack_ok]
  rw [show q + 24 - 24 = q from by omega]
  rw [bsRead_ok d q (fsbSizeAt d q) (by omega)]
  dsimp only
  rw [hlen, Nat.sub_self, List.replicate_zero, List.append_nil]

lemma extractLoop_stop (stem : String) (fuel count : Nat) (s sr : ByteStream)
    (hfind : findFSB5Signature s = (false, sr)) :
    extractLoop stem (fuel + 1) s count = [] := by
  simp only [extractLoop, hfind]

-- ## Claim theorems C8

/-- C8: an outer container whose bytes carry exactly two FSB5 signatures
    at offsets o1 and o2, each starting a sub-container whose
    header-derived total size keeps it inside the file and ahead of the
    next signature, yields exactly two extracted sub-container files,
    named stem.fsb and stem_2.fsb in signature order, each consisting of
    exactly the sizeAt bytes copied from its own signature offset, where
    sizeAt is 0x3C + streamHeaderSize + nameTableSize + dataSize read
    from that sub-container header. -/
theorem C8_two_subcontainers (stem : String) (d : List Nat) (o1 o2 : Nat)
    (h1 : sigAt d o1) (h2 : sigAt d o2)
    (honly : ∀ p, p < d.length → sigAt d p → p = o1 ∨ p = o2)
    (hfit1 : 60 + readU32LE d (o1 + 12) + readU32LE d (o1 + 16) +
      readU32LE d (o1 + 20) < 4294967296)
    (hfit2 : 60 + readU32LE d (o2 + 12) + readU32LE d (o2 + 16) +
      readU32LE d (o2 + 20) < 4294967296)
    (hord : o1 + fsbSizeAt d o1 ≤ o2)
    (hend : o2 + fsbSizeAt d o2 ≤ d.length) :
    extractFSBsFromBankFile stem d =
      [(stem ++ ".fsb", (d.drop o1).take (fsbSizeAt d o1)),
       (stem ++ "_2.fsb", (d.drop o2).take (fsbSizeAt d o2))] := by
  have hs1 : 60 ≤ fsbSizeAt d o1 := by
    rw [fsbSizeAt, Nat.mod_eq_of_lt hfit1]; omega
  have hs2 : 60 ≤ fsbSizeAt d o2 := by
    rw [fsbSizeAt, Nat.mod_eq_of_lt hfit2]; omega
  have h12 : o1 < o2 := by omega
  have h2len : o2 + 4 ≤ d.length := sigAt_add_four_le d o2 h2
  have hfind1 : findFSB5Signature ⟨d, 0, false⟩ = (true, ⟨d, o1, false⟩) := by
    refine findFSB5_found d 0 o1 (by omega) h1 (fun p _ hp hsig => ?_)
    rcases honly p (by have := sigAt_add_four_le d p hsig; omega) hsig with rfl | rfl
    · omega
    · omega
  have hfind2 : findFSB5Signature ⟨d, o1 + fsbSizeAt d o1, false⟩ =
      (true, ⟨d, o2, false⟩) := by
    refine findFSB5_found d (o1 + fsbSizeAt d o1) o2 hord h2 (fun p hple hp hsig => ?_)
    rcases honly p (by have := sigAt_add_four_le d p hsig; omega) hsig with rfl | rfl
    · omega
    · omega
  have hzero : extractLoop stem (d.length - 2 + 1) ⟨d, o2 + fsbSizeAt d o2, false⟩
      (0 + 1 + 1) = [] := by
    by_cases hoe : o2 + fsbSizeAt d o2 < d.length
    · refine extractLoop_stop stem (d.length - 2) (0 + 1 + 1) _ _
        (findFSB5_none_mid d _ hoe (fun p hple hsig => ?_))
      rcases honly p (by have := sigAt_add_four_le d p hsig; omega) hsig with rfl | rfl
      · omega
      · omega
    · exact extractLoop_stop stem (d.length - 2) (0 + 1 + 1) _ _
        (findFSB5_none_atEnd d _ (by omega))
  have t1 : tempName stem (0 + 1) = stem ++ ".fsb" := by
    rw [show (0 : Nat) + 1 = 1 from rfl, tempName_one]
  have t2 : tempName stem (0 + 1 + 1) = stem ++ "_2.fsb" := by
    rw [show (0 : Nat) + 1 + 1 = 2 from rfl, tempName_two]
  simp only [extractFSBsFromBankFile]
  rw [extractLoop_found_step stem d d.length 0 0 o1 hfind1 (by omega) (by omega)]
  rw [show d.length = d.length - 2 + 1 + 1 from by omega]
  rw [extractLoop_found_step stem d (d.length - 2 + 1) (0 + 1) (o1 + fsbSizeAt d o1) o2
    hfind2 (by omega) (by omega)]
  rw [hzero, t1, t2]

/-- C8 block used by the witness: one minimal sub-container, 60 bytes,
    all header fields zero. -/
def fsbBlock : List Nat := [70, 83, 66, 53] ++ List.replicate 56 0

/-- C8 bank bytes used by the witness: junk, a sub-container at offset
    1, junk, a second sub-container at offset 63. -/
def bankBytes : List Nat := [9] ++ fsbBlock ++ [7, 8] ++ fsbBlock

set_option maxRecDepth 10000 in
/-- C8 witness: the two-signature scenario evaluated on a concrete
    123-byte outer container with signatures at offsets 1 and 63. -/
theorem C8_witness :
    extractFSBsFromBankFile "bank" bankBytes =
      [("bank" ++ ".fsb", (bankBytes.drop 1).take 60),
       ("bank" ++ "_2.fsb", (bankBytes.drop 63).take 60)] := by
  have h := C8_two_subcontainers "bank" bankBytes 1 63 (by decide) (by decide)
    (by decide) (by decide) (by decide) (by decide) (by decide)
  rw [show fsbSizeAt bankBytes 1 = 60 from by decide,
      show fsbSizeAt bankBytes 63 = 60 from by decide] at h
  exact h

-- ## Helper lemmas: 24-bit packing

lemma pcm24Pack_eq_take : ∀ l : List Nat, pcm24Pack l = l.take (3 * (l.length / 3))
  | [] => by simp [pcm24Pack]
  | [a] => by simp [pcm24Pack]
  | [a, b] => by simp [pcm24Pack]
  | a :: b :: c :: t => by
    have ih := pcm24Pack_eq_take t
    simp only [pcm24Pack, ih, List.length_cons]
    rw [show 3 * ((t.length + 1 + 1 + 1) / 3) = 3 * (t.length / 3) + 1 + 1 + 1 from by omega]
    simp [List.take_succ_cons]

lemma pcm24Pack_length (l : List Nat) : (pcm24Pack l).length = 3 * (l.length / 3) := by
  rw [pcm24Pack_eq_take, List.length_take]
  omega

lemma pcm24Expected_zero : pcm24Expected 0 = 0 := by
  simp [pcm24Expected]

lemma pcm24Expected_step (r : Nat) (_ : r ≠ 0) :
    3 * (min 4096 r / 3) + pcm24Expected (r - min 4096 r) = pcm24Expected r := by
  rcases le_or_lt 4096 r with hr | hr
  · rw [min_eq_left hr]
    simp only [pcm24Expected]
    omega
  · rw [min_eq_right (le_of_lt hr)]
    simp only [pcm24Expected]
    omega

-- ## Helper lemmas: runs of the transcription loops

lemma writeAudio_success_length (plan : Nat → Option Nat) (src : List Nat) (L : Nat) :
    ∀ fuel total k out fin, out.length = total → total ≤ L →
      writeAudioDataChunkLoop plan src L fuel total k out = WriteResult.success fin →
      fin.length = L := by
  intro fuel
  induction fuel with
  | zero =>
    intro total k out fin _ _ h
    simp [writeAudioDataChunkLoop] at h
  | succ fuel ih =>
    intro total k out fin hlen htot h
    simp only [writeAudioDataChunkLoop] at h
    by_cases hLt : L ≤ total
    · rw [if_pos hLt] at h
      injection h with h
      subst h
      omega
    · rw [if_neg hLt] at h
      cases hpk : plan k with
      | none => rw [hpk] at h; simp at h
      | some m =>
        rw [hpk] at h
        have hch : ((src.drop total).take (min m (min 4096 (L - total)))).length ≤ L - total := by
          simp only [List.length_take, List.length_drop]
          omega
        refine ih _ _ _ _ ?_ (by omega) h
        simp only [List.length_append, hlen]

lemma writePCM24_full_run (plan : Nat → Option Nat) (src : List Nat) (L : Nat)
    (hplan : ∀ j, plan j = some 4096) (hsrc : src.length = L) :
    ∀ fuel total k out, total ≤ L → L - total < fuel →
      ∃ fin, writePCM24DataChunkLoop plan src L fuel total k out = WriteResult.success fin ∧
        fin.length = out.length + pcm24Expected (L - total) := by
  intro fuel
  induction fuel with
  | zero => intro total k out _ hfuel; omega
  | succ fuel ih =>
    intro total k out htot hfuel
    by_cases hLt : L ≤ total
    · refine ⟨out, ?_, ?_⟩
      · simp only [writePCM24DataChunkLoop]
        rw [if_pos hLt]
      · rw [show L - total = 0 from by omega, pcm24Expected_zero]
        omega
    · have hc : ((src.drop total).take (min 4096 (min 4096 (L - total)))).length
          = min 4096 (L - total) := by
        simp only [List.length_take, List.length_drop, hsrc]
        omega
      obtain ⟨fin, heq, hlen⟩ := ih
        (total + ((src.drop total).take (min 4096 (min 4096 (L - total)))).length) (k + 1)
        (out ++ pcm24Pack ((src.drop total).take (min 4096 (min 4096 (L - total)))))
        (by rw [hc]; omega) (by rw [hc]; omega)
      refine ⟨fin, ?_, ?_⟩
      · simp only [writePCM24DataChunkLoop]
        rw [if_neg hLt, hplan k]
        exact heq
      · have hstep := pcm24Expected_step (L - total) (by omega)
        rw [hlen, List.length_append, pcm24Pack_length, hc,
          show L - (total + min 4096 (L - total)) = L - total - min 4096 (L - total)
            from by omega]
        omega

lemma writeFloat_success_bytes (plan : Nat → Option Nat) (src : List ℚ) (L : Nat) :
    ∀ fuel total k out written fin fb, written = total → total ≤ L →
      writePCMFloatDataChunkLoop plan src L fuel total k out written =
        FloatResult.success fin fb → fb = L := by
  intro fuel
  induction fuel with
  | zero =>
    intro total k out written fin fb _ _ h
    simp [writePCMFloatDataChunkLoop] at h
  | succ fuel ih =>
    intro total k out written fin fb hw htot h
    simp only [writePCMFloatDataChunkLoop] at h
    by_cases hLt : L ≤ total
    · rw [if_pos hLt] at h
      injection h with h1 h2
      omega
    · rw [if_neg hLt] at h
      cases hpk : plan k with
      | none => rw [hpk] at h; simp at h
      | some m =>
        rw [hpk] at h
        have hd : min (min m (min 4096 (L - total))) (4 * src.length - total) ≤ L - total := by
          omega
        refine ih _ _ _ _ _ _ ?_ (by omega) h
        omega

lemma clampQ_mem (x : ℚ) : -1 ≤ clampQ x ∧ clampQ x ≤ 1 := by
  unfold clampQ
  split_ifs with h1 h2
  · constructor <;> norm_num
  · constructor <;> norm_num
  · exact ⟨not_lt.mp h1, not_lt.mp h2⟩

lemma writeFloat_samples_clamped (plan : Nat → Option Nat) (src : List ℚ) (L : Nat) :
    ∀ fuel total k out written, (∀ x ∈ out, -1 ≤ x ∧ x ≤ 1) →
      ∀ x ∈ (writePCMFloatDataChunkLoop plan src L fuel total k out written).samples,
        -1 ≤ x ∧ x ≤ 1 := by
  intro fuel
  induction fuel with
  | zero =>
    intro total k out written _ x hx
    simp [writePCMFloatDataChunkLoop, FloatResult.samples] at hx
  | succ fuel ih =>
    intro total k out written hout x hx
    simp only [writePCMFloatDataChunkLoop] at hx
    by_cases hLt : L ≤ total
    · rw [if_pos hLt] at hx
      exact hout x hx
    · rw [if_neg hLt] at hx
      cases hpk : plan k with
      | none =>
        rw [hpk] at hx
        exact hout x hx
      | some m =>
        rw [hpk] at hx
        refine ih _ _ _ _ ?_ x hx
        intro y hy
        rcases List.mem_append.mp hy with hy | hy
        · exact hout y hy
        · obtain ⟨z, _, rfl⟩ := List.mem_map.mp hy
          exact clampQ_mem z

lemma writeAudio_pos_success (plan : Nat → Option Nat) (src : List Nat) (L : Nat)
    (hplan : ∀ k, ∃ m, plan k = some m ∧ 1 ≤ m) (hsrc : src.length = L) :
    ∀ fuel total k out, total ≤ L → L - total < fuel →
      (writeAudioDataChunkLoop plan src L fuel total k out).isSuccess = true := by
  intro fuel
  induction fuel with
  | zero => intro total k out _ hfuel; omega
  | succ fuel ih =>
    intro total k out htot hfuel
    simp only [writeAudioDataChunkLoop]
    by_cases hLt : L ≤ total
    · rw [if_pos hLt]
      rfl
    · rw [if_neg hLt]
      obtain ⟨m, hm, hm1⟩ := hplan k
      rw [hm]
      have hc : ((src.drop total).take (min m (min 4096 (L - total)))).length
          = min m (min 4096 (L - total)) := by
        simp only [List.length_take, List.length_drop, hsrc]
        omega
      exact ih _ (k + 1) _ (by rw [hc]; omega) (by rw [hc]; omega)

lemma writePCM24_pos_success (plan : Nat → Option Nat) (src : List Nat) (L : Nat)
    (hplan : ∀ k, ∃ m, plan k = some m ∧ 1 ≤ m) (hsrc : src.length = L) :
    ∀ fuel total k out, total ≤ L → L - total < fuel →
      (writePCM24DataChunkLoop plan src L fuel total k out).isSuccess = true := by
  intro fuel
  induction fuel with
  | zero => intro total k out _ hfuel; omega
  | succ fuel ih =>
    intro total k out htot hfuel
    simp only [writePCM24DataChunkLoop]
    by_cases hLt : L ≤ total
    · rw [if_pos hLt]
      rfl
    · rw [if_neg hLt]
      obtain ⟨m, hm, hm1⟩ := hplan k
      rw [hm]
      have hc : ((src.drop total).take (min m (min 4096 (L - total)))).length
          = min m (min 4096 (L - total)) := by
        simp only [List.length_take, List.length_drop, hsrc]
        omega
      exact ih _ (k + 1) _ (by rw [hc]; omega) (by rw [hc]; omega)

lemma writeFloat_pos_success (plan : Nat → Option Nat) (src : List ℚ) (L : Nat)
    (hplan : ∀ k, ∃ m, plan k = some m ∧ 1 ≤ m) (hsrc : 4 * src.length = L) :
    ∀ fuel total k out written, total ≤ L → L - total < fuel →
      (writePCMFloatDataChunkLoop plan src L fuel total k out written).isSuccess = true := by
  intro fuel
  induction fuel with
  | zero => intro total k out written _ hfuel; omega
  | succ fuel ih =>
    intro total k out written htot hfuel
    simp only [writePCMFloatDataChunkLoop]
    by_cases hLt : L ≤ total
    · rw [if_pos hLt]
      rfl
    · rw [if_neg hLt]
      obtain ⟨m, hm, hm1⟩ := hplan k
      rw [hm]
      exact ih _ (k + 1) _ _ (by omega) (by omega)

lemma writeAudio_zero_diverge (src : List Nat) (L : Nat) :
    ∀ fuel total k out, total < L →
      writeAudioDataChunkLoop (fun _ => some 0) src L fuel total k out =
        WriteResult.diverge := by
  intro fuel
  induction fuel with
  | zero => intro total k out _; rfl
  | succ fuel ih =>
    intro total k out htot
    simp only [writeAudioDataChunkLoop]
    rw [if_neg (by omega)]
    simp only [Nat.zero_min, List.take_zero, List.length_nil, Nat.add_zero, List.append_nil]
    exact ih total (k + 1) out htot

lemma writePCM24_zero_diverge (src : List Nat) (L : Nat) :
    ∀ fuel total k out, total < L →
      writePCM24DataChunkLoop (fun _ => some 0) src L fuel total k out =
        WriteResult.diverge := by
  intro fuel
  induction fuel with
  | zero => intro total k out _; rfl
  | succ fuel ih =>
    intro total k out htot
    simp only [writePCM24DataChunkLoop]
    rw [if_neg (by omega)]
    simp only [Nat.zero_min, List.take_zero, List.length_nil, Nat.add_zero, pcm24Pack,
      List.append_nil]
    exact ih total (k + 1) out htot

lemma writeFloat_zero_diverge (src : List ℚ) (L : Nat) :
    ∀ fuel total k out written, total < L →
      writePCMFloatDataChunkLoop (fun _ => some 0) src L fuel total k out written =
        FloatResult.diverge := by
  intro fuel
  induction fuel with
  | zero => intro total k out written _; rfl
  | succ fuel ih =>
    intro total k out written htot
    simp only [writePCMFloatDataChunkLoop]
    rw [if_neg (by omega)]
    simp only [Nat.zero_min, Nat.zero_div, List.take_zero, List.map_nil, Nat.add_zero,
      List.append_nil]
    exact ih total (k + 1) out written htot

lemma writePCM24_step (plan : Nat → Option Nat) (src : List Nat) (L fuel total k : Nat)
    (out : List Nat) (hLt : ¬ L ≤ total) (m : Nat) (hm : plan k = some m) :
    writePCM24DataChunkLoop plan src L (fuel + 1) total k out =
      writePCM24DataChunkLoop plan src L fuel
        (total + ((src.drop total).take (min m (min 4096 (L - total)))).length) (k + 1)
        (out ++ pcm24Pack ((src.drop total).take (min m (min 4096 (L - total))))) := by
  simp only [writePCM24DataChunkLoop]
  rw [if_neg hLt, hm]

lemma writePCM24_done (plan : Nat → Option Nat) (src : List Nat) (L fuel total k : Nat)
    (out : List Nat) (hLt : L ≤ total) :
    writePCM24DataChunkLoop plan src L (fuel + 1) total k out = WriteResult.success out := by
  simp only [writePCM24DataChunkLoop]
  rw [if_pos hLt]

-- ## Claim theorems C1, C2, C9, C10

/-- C1 counterexample: a 4-byte 24-bit PCM stream under full-chunk
    delivery.  Transcription returns success having written 3 bytes (the
    incomplete trailing sample is discarded), while the header data-size
    field, written from the reported byte length, says 4. -/
theorem C1_counterexample :
    writePCM24DataChunkLoop (fun _ => some 4096) (List.replicate 4 0) 4 5 0 0 [] =
      WriteResult.success (List.replicate 3 0) ∧
    (writeWAVHeader 44100 2 24 4 SoundFormat.pcm24).dataSize32 = 4 ∧
    (List.replicate 3 (0 : Nat)).length ≠ 4 := by
  refine ⟨by decide, rfl, by decide⟩

/-- C1 amended: for every non-24-bit format the header data-size field
    equals the bytes written on success (integer PCM and the fallback
    write every delivered byte, so a successful run writes exactly the
    declared length; the float writer likewise counts every delivered
    byte).  For 24-bit PCM under full-chunk delivery the run succeeds
    and the header field still says L, but the bytes written are
    pcm24Expected L, which is at most L (each chunk discards its 1-2
    leftover bytes). -/
theorem C1_amended :
    (∀ (sr ch bits : Nat) (fmt : SoundFormat) (plan : Nat → Option Nat) (src : List Nat)
       (L fuel : Nat) (fin : List Nat), L < 4294967296 →
       writeAudioDataChunkLoop plan src L fuel 0 0 [] = WriteResult.success fin →
       (writeWAVHeader sr ch bits L fmt).dataSize32 = fin.length) ∧
    (∀ (sr ch bits : Nat) (fmt : SoundFormat) (plan : Nat → Option Nat) (src : List ℚ)
       (L fuel : Nat) (fin : List ℚ) (fb : Nat), L < 4294967296 →
       writePCMFloatDataChunkLoop plan src L fuel 0 0 [] 0 = FloatResult.success fin fb →
       (writeWAVHeader sr ch bits L fmt).dataSize32 = fb) ∧
    (∀ (sr ch bits : Nat) (fmt : SoundFormat) (plan : Nat → Option Nat) (src : List Nat)
       (L fuel : Nat), L < 4294967296 → (∀ j, plan j = some 4096) → src.length = L →
       L < fuel →
       ∃ fin, writePCM24DataChunkLoop plan src L fuel 0 0 [] = WriteResult.success fin ∧
         (writeWAVHeader sr ch bits L fmt).dataSize32 = L ∧
         fin.length = pcm24Expected L ∧ pcm24Expected L ≤ L) := by
  refine ⟨?_, ?_, ?_⟩
  · intro sr ch bits fmt plan src L fuel fin hL hrun
    have hlen := writeAudio_success_length plan src L fuel 0 0 [] fin rfl (Nat.zero_le L) hrun
    simp only [writeWAVHeader]
    omega
  · intro sr ch bits fmt plan src L fuel fin fb hL hrun
    have hb := writeFloat_success_bytes plan src L fuel 0 0 [] 0 fin fb rfl (Nat.zero_le L) hrun
    simp only [writeWAVHeader]
    omega
  · intro sr ch bits fmt plan src L fuel hL hplan hsrc hfuel
    obtain ⟨fin, heq, hlen⟩ :=
      writePCM24_full_run plan src L hplan hsrc fuel 0 0 [] (Nat.zero_le L) (by omega)
    refine ⟨fin, heq, ?_, by simpa using hlen, ?_⟩
    · simp only [writeWAVHeader]
      omega
    · simp only [pcm24Expected]
      omega

/-- C1 witness: the amended statement evaluated on a concrete 3-byte
    8-bit PCM run under full-chunk delivery. -/
theorem C1_witness :
    (writeWAVHeader 8000 1 8 3 SoundFormat.pcm8).dataSize32 = ([5, 6, 7] : List Nat).length :=
  C1_amended.1 8000 1 8 SoundFormat.pcm8 (fun _ => some 4096) [5, 6, 7] 3 4 [5, 6, 7]
    (by decide) (by decide)

/-- C2 counterexample: a 24-bit PCM stream of 8197 bytes (8197 mod 3 =
    1) under full-chunk delivery.  The claim predicts floor(8197/3)*3 =
    8196 output bytes; the code writes 8193, because each of the two
    full 4096-byte chunks already discards one leftover byte (4096 mod 3
    = 1) before the final 5-byte chunk discards two. -/
theorem C2_counterexample :
    (writePCM24DataChunkLoop (fun _ => some 4096) (List.replicate 8197 0) 8197 8198
        0 0 []).out.length = 8193 ∧
    (writePCM24DataChunkLoop (fun _ => some 4096) (List.replicate 8197 0) 8197 8198
        0 0 []).isSuccess = true ∧
    8197 / 3 * 3 = 8196 ∧ (8193 : Nat) ≠ 8196 := by
  obtain ⟨fin, heq, hlen⟩ := writePCM24_full_run (fun _ => some 4096) (List.replicate 8197 0)
    8197 (fun j => rfl) (by rw [List.length_replicate]) 8198 0 0 [] (by omega) (by omega)
  rw [heq]
  refine ⟨?_, rfl, by norm_num, by norm_num⟩
  simp only [WriteResult.out]
  rw [hlen]
  decide

/-- C2 amended: under full-chunk delivery the 24-bit writer succeeds
    and writes pcm24Expected L = 4095 * (L / 4096) + 3 * ((L mod 4096) /
    3) bytes: every chunk drops its own 1-2 leftover bytes, not only the
    final one.  This never exceeds the claimed floor(L/3)*3 and
    coincides with it exactly in the single-chunk case L <= 4096, where
    the output is precisely the first 3 * floor(L/3) source bytes (so
    there no byte of an incomplete trailing sample is written). -/
theorem C2_amended (plan : Nat → Option Nat) (src : List Nat) (L fuel : Nat)
    (hplan : ∀ j, plan j = some 4096) (hsrc : src.length = L) (hfuel : L < fuel) :
    (∃ fin, writePCM24DataChunkLoop plan src L fuel 0 0 [] = WriteResult.success fin ∧
       fin.length = pcm24Expected L ∧
       (L ≤ 4096 → fin = src.take (3 * (L / 3)))) ∧
    pcm24Expected L ≤ 3 * (L / 3) ∧
    (L ≤ 4096 → pcm24Expected L = 3 * (L / 3)) := by
  obtain ⟨fin, heq, hlen⟩ :=
    writePCM24_full_run plan src L hplan hsrc fuel 0 0 [] (Nat.zero_le L) (by omega)
  have hcontent : L ≤ 4096 → fin = src.take (3 * (L / 3)) := by
    intro hL4
    rcases Nat.eq_zero_or_pos L with rfl | hpos
    · have hdone : writePCM24DataChunkLoop plan src 0 fuel 0 0 [] =
          WriteResult.success [] := by
        obtain ⟨f, rfl⟩ : ∃ f, fuel = f + 1 := ⟨fuel - 1, by omega⟩
        simp [writePCM24DataChunkLoop]
      rw [hdone] at heq
      injection heq with heq
      rw [← heq]
      simp
    · obtain ⟨f1, rfl⟩ : ∃ f, fuel = f + 1 := ⟨fuel - 1, by omega⟩
      obtain ⟨f2, rfl⟩ : ∃ f, f1 = f + 1 := ⟨f1 - 1, by omega⟩
      have hchunk : (src.drop 0).take (min 4096 (min 4096 (L - 0))) = src := by
        rw [List.drop_zero, Nat.sub_zero, min_eq_right hL4,
          min_eq_right hL4, ← hsrc, List.take_length]
      have hone : writePCM24DataChunkLoop plan src L (f2 + 1 + 1) 0 0 [] =
          WriteResult.success (pcm24Pack src) := by
        rw [writePCM24_step plan src L (f2 + 1) 0 0 [] (by omega) 4096 (hplan 0), hchunk,
          List.nil_append]
        exact writePCM24_done plan src L f2 (0 + src.length) 1 (pcm24Pack src) (by omega)
      rw [hone] at heq
      injection heq with heq
      rw [← heq, pcm24Pack_eq_take, hsrc]
  exact ⟨⟨fin, heq, by simpa using hlen, hcontent⟩,
    by simp only [pcm24Expected]; omega,
    fun hL4 => by simp only [pcm24Expected]; omega⟩

/-- C2 witness: the amended statement evaluated on a concrete 4-byte
    single-chunk stream: exactly the first 3 bytes are written. -/
theorem C2_witness :
    pcm24Expected 4 ≤ 3 * (4 / 3) ∧
    (writePCM24DataChunkLoop (fun _ => some 4096) [1, 2, 3, 4] 4 5 0 0 []).out = [1, 2, 3] := by
  obtain ⟨⟨fin, heq, hlen, hcontent⟩, hle, _⟩ :=
    C2_amended (fun _ => some 4096) [1, 2, 3, 4] 4 5 (fun j => rfl) (by decide) (by decide)
  refine ⟨hle, ?_⟩
  rw [heq]
  simp only [WriteResult.out]
  rw [hcontent (by decide)]
  decide

/-- C9: every sample value the float transcription loop writes has been
    clamped, so it lies within the inclusive range [-1, 1], whatever
    values the decoding engine delivers and whatever the delivery
    pattern. -/
theorem C9_float_clamped (plan : Nat → Option Nat) (src : List ℚ) (L fuel : Nat) (x : ℚ)
    (hx : x ∈ (writePCMFloatDataChunkLoop plan src L fuel 0 0 [] 0).samples) :
    -1 ≤ x ∧ x ≤ 1 :=
  writeFloat_samples_clamped plan src L fuel 0 0 [] 0 (by simp) x hx

/-- C9 witness: a concrete run whose engine delivers the out-of-range
    samples 2 and -3; the written samples are 1 and -1, and the theorem
    is applied to the written sample 1. -/
theorem C9_witness : -1 ≤ (1 : ℚ) ∧ (1 : ℚ) ≤ 1 :=
  C9_float_clamped (fun _ => some 4096) [2, -3] 8 9 1 (by decide)

/-- C10: with a declared length L below the fuel bound, if every engine
    read succeeds and delivers at least one byte then each of the three
    transcription loops reaches the declared total and terminates
    successfully; and with an engine whose reads succeed but deliver
    zero bytes, each of the three loops never terminates (it exhausts
    every fuel bound), for any positive L. -/
theorem C10_termination :
    (∀ (plan : Nat → Option Nat) (src : List Nat) (srcF : List ℚ) (L fuel : Nat),
       (∀ k, ∃ m, plan k = some m ∧ 1 ≤ m) → L < fuel →
       (src.length = L →
          (writeAudioDataChunkLoop plan src L fuel 0 0 []).isSuccess = true ∧
          (writePCM24DataChunkLoop plan src L fuel 0 0 []).isSuccess = true) ∧
       (4 * srcF.length = L →
          (writePCMFloatDataChunkLoop plan srcF L fuel 0 0 [] 0).isSuccess = true)) ∧
    (∀ (src : List Nat) (srcF : List ℚ) (L : Nat), 0 < L → ∀ fuel,
       writeAudioDataChunkLoop (fun _ => some 0) src L fuel 0 0 [] = WriteResult.diverge ∧
       writePCM24DataChunkLoop (fun _ => some 0) src L fuel 0 0 [] = WriteResult.diverge ∧
       writePCMFloatDataChunkLoop (fun _ => some 0) srcF L fuel 0 0 [] 0 =
         FloatResult.diverge) := by
  constructor
  · intro plan src srcF L fuel hplan hfuel
    constructor
    · intro hsrc
      exact ⟨writeAudio_pos_success plan src L hplan hsrc fuel 0 0 [] (Nat.zero_le L)
          (by omega),
        writePCM24_pos_success plan src L hplan hsrc fuel 0 0 [] (Nat.zero_le L) (by omega)⟩
    · intro hsrc
      exact writeFloat_pos_success plan srcF L hplan hsrc fuel 0 0 [] 0 (Nat.zero_le L)
        (by omega)
  · intro src srcF L hL fuel
    exact ⟨writeAudio_zero_diverge src L fuel 0 0 [] hL,
      writePCM24_zero_diverge src L fuel 0 0 [] hL,
      writeFloat_zero_diverge srcF L fuel 0 0 [] 0 hL⟩

/-- C10 witness: the termination half evaluated on a concrete 4-byte
    stream with full-chunk delivery, for the generic loop and the float
    loop. -/
theorem C10_witness :
    (writeAudioDataChunkLoop (fun _ => some 4096) [0, 0, 0, 0] 4 5 0 0 []).isSuccess = true ∧
    (writePCMFloatDataChunkLoop (fun _ => some 4096) [(0 : ℚ)] 4 5 0 0 [] 0).isSuccess
      = true := by
  have h := C10_termination.1 (fun _ => some 4096) [0, 0, 0, 0] [(0 : ℚ)] 4 5
    (fun k => ⟨4096, rfl, by omega⟩) (by omega)
  exact ⟨(h.1 (by decide)).1, h.2 (by decide)⟩
